import Mathlib

/-!
Shallow embedding of the request-construction, signing and response-decoding
core of the `aiocoinbase` client library, together with proofs of the spec
claims about it.  Machine bytes are modelled as `Nat` values `< 256`, 32-bit
words as `Nat` values reduced `% 2^32`, and fallible Python code as `Except`.
-/

set_option maxRecDepth 10000

/-- Python exceptions that the embedded code can raise.  `binasciiError`
models `binascii.Error` (a `ValueError` subclass) raised by `base64.b64decode`;
`jsonDecodeError` models `orjson.JSONDecodeError`; the rest model the
built-in exception of the same name. -/
inductive PyErr where
  | binasciiError
  | valueError
  | typeError
  | keyError
  | jsonDecodeError
  deriving DecidableEq, Repr

/-! ## Bytes and UTF-8 (`str.encode()`) -/

/-- UTF-8 encoding of one character, as byte values. -/
def utf8Char (c : Char) : List Nat :=
  let n := c.toNat
  if n < 0x80 then [n]
  else if n < 0x800 then [0xC0 ||| (n >>> 6), 0x80 ||| (n &&& 0x3F)]
  else if n < 0x10000 then
    [0xE0 ||| (n >>> 12), 0x80 ||| ((n >>> 6) &&& 0x3F), 0x80 ||| (n &&& 0x3F)]
  else
    [0xF0 ||| (n >>> 18), 0x80 ||| ((n >>> 12) &&& 0x3F),
     0x80 ||| ((n >>> 6) &&& 0x3F), 0x80 ||| (n &&& 0x3F)]

/-- `s.encode()`: the UTF-8 bytes of a string. -/
def strBytes (s : String) : List Nat :=
  (s.data.map utf8Char).flatten

/-! ## SHA-256 (`hashlib.sha256`) -/

def M32 : Nat := 4294967296

def add32 (a b : Nat) : Nat := (a + b) % M32

def rotr32 (n x : Nat) : Nat := ((x >>> n) ||| (x <<< (32 - n))) % M32

def not32 (x : Nat) : Nat := x ^^^ (M32 - 1)

/-- The SHA-256 round constants. -/
def sha256K : List Nat :=
  [1116352408, 1899447441, 3049323471, 3921009573, 961987163, 1508970993,
   2453635748, 2870763221, 3624381080, 310598401, 607225278, 1426881987,
   1925078388, 2162078206, 2614888103, 3248222580, 3835390401, 4022224774,
   264347078, 604807628, 770255983, 1249150122, 1555081692, 1996064986,
   2554220882, 2821834349, 2952996808, 3210313671, 3336571891, 3584528711,
   113926993, 338241895, 666307205, 773529912, 1294757372, 1396182291,
   1695183700, 1986661051, 2177026350, 2456956037, 2730485921, 2820302411,
   3259730800, 3345764771, 3516065817, 3600352804, 4094571909, 275423344,
   430227734, 506948616, 659060556, 883997877, 958139571, 1322822218,
   1537002063, 1747873779, 1955562222, 2024104815, 2227730452, 2361852424,
   2428436474, 2756734187, 3204031479, 3329325298]

/-- The SHA-256 initial hash value. -/
def sha256H0 : List Nat :=
  [1779033703, 3144134277, 1013904242, 2773480762,
   1359893119, 2600822924, 528734635, 1541459225]

/-- Group a byte list into 32-bit big-endian words. -/
def toWordsBE : List Nat → List Nat
  | b0 :: b1 :: b2 :: b3 :: rest => (((b0 * 256 + b1) * 256 + b2) * 256 + b3) :: toWordsBE rest
  | _ => []

/-- One extension step of the SHA-256 message schedule, computed from the
words produced so far (`w.length ≥ 16`). -/
def schedWord (w : List Nat) : Nat :=
  let ℓ := w.length
  let w15 := w.getD (ℓ - 15) 0
  let w2 := w.getD (ℓ - 2) 0
  let s0 := rotr32 7 w15 ^^^ rotr32 18 w15 ^^^ (w15 >>> 3)
  let s1 := rotr32 17 w2 ^^^ rotr32 19 w2 ^^^ (w2 >>> 10)
  (w.getD (ℓ - 16) 0 + s0 + w.getD (ℓ - 7) 0 + s1) % M32

/-- Extend the 16 message words to the full 64-word schedule. -/
def schedExtend : Nat → List Nat → List Nat
  | 0, w => w
  | n + 1, w => schedExtend n (w ++ [schedWord w])

/-- SHA-256 working state. -/
structure Sha256State where
  a : Nat
  b : Nat
  c : Nat
  d : Nat
  e : Nat
  f : Nat
  g : Nat
  h : Nat
  deriving Repr

/-- One SHA-256 compression round; `kw` is the pair of round constant and
schedule word. -/
def sha256Round (st : Sha256State) (kw : Nat × Nat) : Sha256State :=
  let s1 := rotr32 6 st.e ^^^ rotr32 11 st.e ^^^ rotr32 25 st.e
  let ch := (st.e &&& st.f) ^^^ (not32 st.e &&& st.g)
  let temp1 := (st.h + s1 + ch + kw.1 + kw.2) % M32
  let s0 := rotr32 2 st.a ^^^ rotr32 13 st.a ^^^ rotr32 22 st.a
  let maj := (st.a &&& st.b) ^^^ (st.a &&& st.c) ^^^ (st.b &&& st.c)
  let temp2 := (s0 + maj) % M32
  ⟨(temp1 + temp2) % M32, st.a, st.b, st.c, add32 st.d temp1, st.e, st.f, st.g⟩

/-- Compress one 64-byte chunk into the running hash value. -/
def sha256Compress (hs : List Nat) (chunk : List Nat) : List Nat :=
  let w := schedExtend 48 (toWordsBE chunk)
  let st0 : Sha256State :=
    ⟨hs.getD 0 0, hs.getD 1 0, hs.getD 2 0, hs.getD 3 0,
     hs.getD 4 0, hs.getD 5 0, hs.getD 6 0, hs.getD 7 0⟩
  let st := (sha256K.zip w).foldl sha256Round st0
  [add32 (hs.getD 0 0) st.a, add32 (hs.getD 1 0) st.b, add32 (hs.getD 2 0) st.c,
   add32 (hs.getD 3 0) st.d, add32 (hs.getD 4 0) st.e, add32 (hs.getD 5 0) st.f,
   add32 (hs.getD 6 0) st.g, add32 (hs.getD 7 0) st.h]

/-- The 8-byte big-endian encoding of a number. -/
def be64 (n : Nat) : List Nat :=
  [(n >>> 56) &&& 255, (n >>> 48) &&& 255, (n >>> 40) &&& 255, (n >>> 32) &&& 255,
   (n >>> 24) &&& 255, (n >>> 16) &&& 255, (n >>> 8) &&& 255, n &&& 255]

/-- The 4-byte big-endian encoding of a 32-bit word. -/
def be32 (n : Nat) : List Nat :=
  [(n >>> 24) &&& 255, (n >>> 16) &&& 255, (n >>> 8) &&& 255, n &&& 255]

/-- SHA-256 padding: a `0x80` byte, zeros to 56 mod 64, then the bit length. -/
def sha256Pad (msg : List Nat) : List Nat :=
  let padZeros := (119 - msg.length % 64) % 64
  msg ++ [0x80] ++ List.replicate padZeros 0 ++ be64 (8 * msg.length)

/-- Split a byte list into 64-byte chunks; the first argument is fuel and
any value at least the list's length works. -/
def chunks64Aux : Nat → List Nat → List (List Nat)
  | _, [] => []
  | 0, _ :: _ => []
  | f + 1, x :: xs => (x :: xs).take 64 :: chunks64Aux f ((x :: xs).drop 64)

/-- Split a byte list into 64-byte chunks. -/
def chunks64 (l : List Nat) : List (List Nat) := chunks64Aux l.length l

/-- The SHA-256 digest of a byte list. -/
def sha256 (msg : List Nat) : List Nat :=
  ((chunks64 (sha256Pad msg)).foldl sha256Compress sha256H0).map be32 |>.flatten

/-! ## HMAC-SHA256 (`hmac.new(..., digestmod=hashlib.sha256)`) -/

/-- HMAC-SHA256 with block size 64. -/
def hmacSha256 (key msg : List Nat) : List Nat :=
  let k1 := if 64 < key.length then sha256 key else key
  let k2 := k1 ++ List.replicate (64 - k1.length) 0
  let ipad := k2.map (fun b => b ^^^ 0x36)
  let opad := k2.map (fun b => b ^^^ 0x5c)
  sha256 (opad ++ sha256 (ipad ++ msg))

/-! ## Base64 (`base64.b64encode` / `base64.b64decode`) -/

/-- The standard base64 alphabet. -/
def b64Alphabet : List Char :=
  "ABCDEFGHIJKLMNOPQRSTUVWXYZabcdefghijklmnopqrstuvwxyz0123456789+/".data

/-- The character of a 6-bit value. -/
def b64Char (n : Nat) : Char := b64Alphabet.getD n 'A'

/-- The 6-bit value of an alphabet character, or `none` for any other
character. -/
def b64Val (c : Char) : Option Nat :=
  if c ∈ b64Alphabet then some (b64Alphabet.indexOf c) else none

/-- Encode a byte list in base64, three bytes at a time, padding with `=`. -/
def b64encodeChars : List Nat → List Char
  | a :: b :: c :: rest =>
    b64Char (a / 4) :: b64Char ((a % 4) * 16 + b / 16) ::
      b64Char ((b % 16) * 4 + c / 64) :: b64Char (c % 64) :: b64encodeChars rest
  | [a, b] =>
    [b64Char (a / 4), b64Char ((a % 4) * 16 + b / 16), b64Char ((b % 16) * 4), '=']
  | [a] => [b64Char (a / 4), b64Char ((a % 4) * 16), '=', '=']
  | [] => []

/-- `base64.b64encode(bytes).decode()`: base64 encoding as a string. -/
def b64encode (bs : List Nat) : String := String.mk (b64encodeChars bs)

/-- The bytes obtained from a complete 4-character base64 group. -/
def b64Flush4 (q : List Nat) : List Nat :=
  match q with
  | [a, b, c, d] => [a * 4 + b / 16, (b % 16) * 16 + c / 4, (c % 4) * 64 + d]
  | _ => []

/-- The bytes obtained from the 2- or 3-character group before padding. -/
def b64FlushPad (q : List Nat) : List Nat :=
  match q with
  | [a, b] => [a * 4 + b / 16]
  | [a, b, c] => [a * 4 + b / 16, (b % 16) * 16 + c / 4]
  | _ => []

/-- The decoding loop of CPython `binascii.a2b_base64` in non-strict mode:
characters outside the alphabet are skipped; one `=` ends the data when the
current group holds 3 characters, a second `=` ends it when the group holds
2 characters; decoding stops there and any trailing input is ignored; a
trailing incomplete group raises `binascii.Error`.  `pend` is the current
group and `pad` records a `=` seen on a 2-character group. -/
def b64Go : List Char → List Nat → Bool → Except PyErr (List Nat)
  | [], pend, _ => if pend.length = 0 then .ok [] else .error .binasciiError
  | c :: cs, pend, pad =>
    if c = '=' then
      if pend.length = 3 ∨ (pend.length = 2 ∧ pad) then .ok (b64FlushPad pend)
      else if pend.length = 2 then b64Go cs pend true
      else b64Go cs pend pad
    else
      match b64Val c with
      | some v =>
        if pend.length = 3 then
          (b64Go cs [] false).map (fun rest => b64Flush4 (pend ++ [v]) ++ rest)
        else b64Go cs (pend ++ [v]) false
      | none => b64Go cs pend pad

/-- `base64.b64decode(s)` with its default lenient validation. -/
def b64decodePy (s : String) : Except PyErr (List Nat) := b64Go s.data [] false

/-! ## The signer (`Endpoint._sign` in `endpoint.py` and the textually
identical `Endpoint.sign` in `endpoints/endpoint.py`) -/

namespace Endpoint

/-- `Endpoint._sign`: HMAC-SHA256 over `timestamp + method + endpoint + body`
with the base64-decoded secret as key, base64-encoded.  A `binascii.Error`
raised by `base64.b64decode` on the secret propagates to the caller. -/
def sign (secret endpoint method body timestamp : String) :
    Except PyErr String := do
  let message := strBytes (String.join [timestamp, method, endpoint, body])
  let key ← b64decodePy secret
  let hashed := hmacSha256 key message
  pure (b64encode hashed)

end Endpoint

/-! ## Python values (`Primitive | tuple[Primitive, Type]`) -/

/-- A Python primitive as passed to the builders: the `Primitive` alias
`bool | int | str | Sequence | None` of `endpoint.py`, with both list and
tuple sequences. -/
inductive PPrim where
  | none
  | bool (b : Bool)
  | int (n : Int)
  | str (s : String)
  | list (xs : List PPrim)
  | tuple (xs : List PPrim)

/-- A keyword-parameter value: either a plain primitive or a Python tuple
`(value, converter)` whose second component is callable. -/
inductive Param where
  | val (p : PPrim)
  | pair (p : PPrim) (f : PPrim → PPrim)

/-- `v is None` on a parameter value (a `(value, converter)` tuple is a
tuple object, never `None`). -/
def Param.isNoneV : Param → Bool
  | .val .none => true
  | _ => false

/-- Calling a non-callable Python primitive raises `TypeError`. -/
def pyCallPrim (_f _x : PPrim) : Except PyErr PPrim := .error .typeError

/-! ## `humps.decamelize` -/

/-- The word-splitting pass of `humps.decamelize` on one key: an underscore
is inserted before an upper-case letter that follows a lower-case letter or
a digit, or that precedes a lower-case letter while following an upper-case
letter; the result is lower-cased. -/
def decamelizeChars : Option Char → List Char → List Char
  | _, [] => []
  | prev, c :: cs =>
    let split :=
      c.isUpper &&
        (match prev with
         | some p => (p.isLower || p.isDigit) || (p.isUpper && (match cs with
             | d :: _ => d.isLower
             | [] => false))
         | Option.none => false)
    if split then '_' :: c.toLower :: decamelizeChars (some c) cs
    else c.toLower :: decamelizeChars (some c) cs

/-- `humps.decamelize` on a string key. -/
def decamelizeStr (s : String) : String :=
  String.mk (decamelizeChars Option.none s.data)

/-- `humps.decamelize` on a dict: converts the keys (the values here are
primitives and are left unchanged). -/
def decamelizeObj (kvs : List (String × PPrim)) : List (String × PPrim) :=
  kvs.map (fun kv => (decamelizeStr kv.1, kv.2))

/-- `humps.decamelize` on a dict whose values may still be parameter
pairs (used by `endpoints/endpoint.py`, which never unpacks them). -/
def decamelizeObjP (kvs : List (String × Param)) : List (String × Param) :=
  kvs.map (fun kv => (decamelizeStr kv.1, kv.2))

/-! ## `orjson.dumps` -/

/-- JSON string escaping of one character. -/
def jsonEscapeChar (c : Char) : List Char :=
  if c = '"' then ['\\', '"']
  else if c = '\\' then ['\\', '\\']
  else if c = '\n' then ['\\', 'n']
  else if c = '\t' then ['\\', 't']
  else if c = '\r' then ['\\', 'r']
  else if c.toNat < 32 then
    ['\\', 'u', '0', '0', Nat.digitChar (c.toNat / 16), Nat.digitChar (c.toNat % 16)]
  else [c]

/-- A JSON string literal. -/
def jsonQuote (s : String) : String :=
  String.mk ('"' :: (s.data.map jsonEscapeChar).flatten ++ ['"'])

mutual

/-- `orjson.dumps` on one value: compact output; a tuple is not JSON
serializable for `orjson` and raises `TypeError`. -/
def jsonDumpsVal : PPrim → Except PyErr String
  | .none => .ok ("null")
  | .bool b => .ok (if b then "true" else "false")
  | .int n => .ok (toString n)
  | .str s => .ok (jsonQuote s)
  | .tuple _ => .error .typeError
  | .list xs =>
    (jsonDumpsList xs).map (fun parts => "[" ++ String.intercalate (",") parts ++ "]")

/-- `orjson.dumps` on the elements of a list. -/
def jsonDumpsList : List PPrim → Except PyErr (List String)
  | [] => .ok []
  | x :: xs => do
    let s ← jsonDumpsVal x
    let rest ← jsonDumpsList xs
    pure (s :: rest)

end

/-- `orjson.dumps(...).decode()` on a dict with string keys and primitive
values. -/
def jsonDumpsObj (kvs : List (String × PPrim)) : Except PyErr String := do
  let parts ← kvs.mapM (fun kv => (jsonDumpsVal kv.2).map (fun sv => jsonQuote kv.1 ++ ":" ++ sv))
  pure ("\x7b" ++ String.intercalate (",") parts ++ "\x7d")

/-- `orjson.dumps` on a parameter value: a `(value, converter)` tuple holds
a callable, which is not JSON serializable. -/
def jsonDumpsParam : Param → Except PyErr String
  | .val p => jsonDumpsVal p
  | .pair _ _ => .error .typeError

/-- `orjson.dumps(...).decode()` on a dict whose values may still be
parameter pairs. -/
def jsonDumpsObjP (kvs : List (String × Param)) : Except PyErr String := do
  let parts ← kvs.mapM (fun kv => (jsonDumpsParam kv.2).map (fun sv => jsonQuote kv.1 ++ ":" ++ sv))
  pure ("\x7b" ++ String.intercalate (",") parts ++ "\x7d")

/-! ## The two request-body builders -/

namespace Endpoint

/-- The loop of `Endpoint._buildup` in `endpoint.py`, one Python
`match value` step per entry.  `case None | (None, _)` skips a `None`
value and any 2-element sequence starting with `None`; `case (param, func)`
destructures any other 2-element sequence and stores `func(param)` (a
`TypeError` if the second element is not callable); `case param` stores the
value as is.  Insertion order is kept. -/
def buildupProcess : List (String × Param) → Except PyErr (List (String × PPrim))
  | [] => .ok []
  | (k, v) :: rest =>
    match v with
    | .val .none => buildupProcess rest
    | .pair .none _ => buildupProcess rest
    | .val (.tuple [.none, _]) => buildupProcess rest
    | .val (.list [.none, _]) => buildupProcess rest
    | .pair p f => (buildupProcess rest).map (fun tail => (k, f p) :: tail)
    | .val (.tuple [p, q]) => do
      let r ← pyCallPrim q p
      let tail ← buildupProcess rest
      pure ((k, r) :: tail)
    | .val (.list [p, q]) => do
      let r ← pyCallPrim q p
      let tail ← buildupProcess rest
      pure ((k, r) :: tail)
    | .val p => (buildupProcess rest).map (fun tail => (k, p) :: tail)

/-- `Endpoint._buildup` in `endpoint.py`: process the parameters, decamelize
the keys, serialize to JSON. -/
def buildup (params : List (String × Param)) : Except PyErr String := do
  let processed ← buildupProcess params
  jsonDumpsObj (decamelizeObj processed)

end Endpoint

namespace Endpoints.Endpoint

/-- `Endpoint.buildup` in `endpoints/endpoint.py`: drop the parameters whose
value `is None`, decamelize the keys, serialize to JSON; no
`(value, converter)` handling of any kind. -/
def buildup (params : List (String × Param)) : Except PyErr String :=
  jsonDumpsObjP (decamelizeObjP (params.filter (fun kv => !kv.2.isNoneV)))

end Endpoints.Endpoint

/-! ## `orjson.loads` -/

/-- A parsed JSON value. -/
inductive JVal where
  | null
  | bool (b : Bool)
  | num (q : ℚ)
  | str (s : String)
  | arr (xs : List JVal)
  | obj (kvs : List (String × JVal))

/-- Drop JSON whitespace. -/
def jsonWs (cs : List Char) : List Char :=
  cs.dropWhile (fun c => c = ' ' || c = '\t' || c = '\n' || c = '\r')

/-- The value of a hexadecimal digit. -/
def hexVal (c : Char) : Option Nat :=
  if '0' ≤ c ∧ c ≤ '9' then some (c.toNat - 48)
  else if 'a' ≤ c ∧ c ≤ 'f' then some (c.toNat - 87)
  else if 'A' ≤ c ∧ c ≤ 'F' then some (c.toNat - 70)
  else Option.none

/-- Parse the body of a JSON string literal, the opening quote already
consumed; returns the string and the rest of the input. -/
def parseJStrBody : List Char → List Char → Option (String × List Char)
  | acc, '"' :: rest => some (String.mk acc.reverse, rest)
  | acc, '\\' :: 'u' :: a :: b :: c :: d :: rest => do
    let ha ← hexVal a
    let hb ← hexVal b
    let hc ← hexVal c
    let hd ← hexVal d
    let n := ((ha * 16 + hb) * 16 + hc) * 16 + hd
    parseJStrBody (Char.ofNat n :: acc) rest
  | acc, '\\' :: e :: rest =>
    if e = '"' ∨ e = '\\' ∨ e = '/' then parseJStrBody (e :: acc) rest
    else if e = 'n' then parseJStrBody ('\n' :: acc) rest
    else if e = 't' then parseJStrBody ('\t' :: acc) rest
    else if e = 'r' then parseJStrBody ('\r' :: acc) rest
    else if e = 'b' then parseJStrBody (Char.ofNat 8 :: acc) rest
    else if e = 'f' then parseJStrBody (Char.ofNat 12 :: acc) rest
    else Option.none
  | acc, c :: rest =>
    if c.toNat < 32 then Option.none else parseJStrBody (c :: acc) rest
  | _, [] => Option.none

/-- The numeric value of a run of decimal digit characters. -/
def digitsToNat (ds : List Char) : Nat :=
  ds.foldl (fun a c => 10 * a + (c.toNat - 48)) 0

/-- Parse a JSON number. -/
def parseJNum (cs : List Char) : Option (JVal × List Char) :=
  let (neg, cs1) := match cs with
    | '-' :: rest => (true, rest)
    | rest => (false, rest)
  let ds := cs1.takeWhile Char.isDigit
  let cs2 := cs1.dropWhile Char.isDigit
  if ds.isEmpty then Option.none
  else if ds.length > 1 ∧ ds.headD '0' = '0' then Option.none
  else
    let (fds, cs3) := match cs2 with
      | '.' :: rest => (rest.takeWhile Char.isDigit, rest.dropWhile Char.isDigit)
      | rest => (([] : List Char), rest)
    if cs2 ≠ cs3 ∧ fds.isEmpty then Option.none
    else
      let (hasExp, esign, eds, cs4) := match cs3 with
        | 'e' :: '-' :: rest => (true, true, rest.takeWhile Char.isDigit, rest.dropWhile Char.isDigit)
        | 'e' :: '+' :: rest => (true, false, rest.takeWhile Char.isDigit, rest.dropWhile Char.isDigit)
        | 'e' :: rest => (true, false, rest.takeWhile Char.isDigit, rest.dropWhile Char.isDigit)
        | 'E' :: '-' :: rest => (true, true, rest.takeWhile Char.isDigit, rest.dropWhile Char.isDigit)
        | 'E' :: '+' :: rest => (true, false, rest.takeWhile Char.isDigit, rest.dropWhile Char.isDigit)
        | 'E' :: rest => (true, false, rest.takeWhile Char.isDigit, rest.dropWhile Char.isDigit)
        | rest => (false, false, ([] : List Char), rest)
      if hasExp ∧ eds.isEmpty then Option.none
      else
        let mantissa : ℚ := (digitsToNat (ds ++ fds) : ℚ) / ((10 : ℚ) ^ fds.length)
        let scaled : ℚ :=
          if esign then mantissa / ((10 : ℚ) ^ digitsToNat eds)
          else mantissa * ((10 : ℚ) ^ digitsToNat eds)
        some (.num (if neg then -scaled else scaled), cs4)

/-- The mode of the JSON parser: a value, the members of an object, or the
items of an array. -/
inductive JMode where
  | val
  | members
  | items

/-- The result of one parser step, matching the mode. -/
inductive JOut where
  | val (v : JVal)
  | members (ms : List (String × JVal))
  | items (xs : List JVal)

/-- Recursive-descent JSON parser, structurally recursive on fuel (every
syntactic step decrements it once, so twice the input length plus one always
suffices). -/
def parseJ : Nat → JMode → List Char → Option (JOut × List Char)
  | 0, _, _ => Option.none
  | f + 1, .val, cs =>
    match jsonWs cs with
    | '{' :: rest =>
      (match jsonWs rest with
       | '}' :: rest2 => some (.val (.obj []), rest2)
       | rest2 =>
         match parseJ f .members rest2 with
         | some (.members ms, r) => some (.val (.obj ms), r)
         | _ => Option.none)
    | '[' :: rest =>
      (match jsonWs rest with
       | ']' :: rest2 => some (.val (.arr []), rest2)
       | rest2 =>
         match parseJ f .items rest2 with
         | some (.items xs, r) => some (.val (.arr xs), r)
         | _ => Option.none)
    | '"' :: rest => (parseJStrBody [] rest).map (fun p => (.val (.str p.1), p.2))
    | 't' :: 'r' :: 'u' :: 'e' :: rest => some (.val (.bool true), rest)
    | 'f' :: 'a' :: 'l' :: 's' :: 'e' :: rest => some (.val (.bool false), rest)
    | 'n' :: 'u' :: 'l' :: 'l' :: rest => some (.val .null, rest)
    | rest => (parseJNum rest).map (fun p => (.val p.1, p.2))
  | f + 1, .members, cs =>
    match cs with
    | '"' :: rest =>
      (match parseJStrBody [] rest with
       | some (key, r1) =>
         (match jsonWs r1 with
          | ':' :: r2 =>
            (match parseJ f .val r2 with
             | some (.val v, r3) =>
               (match jsonWs r3 with
                | ',' :: r4 =>
                  (match parseJ f .members (jsonWs r4) with
                   | some (.members ms, r5) => some (.members ((key, v) :: ms), r5)
                   | _ => Option.none)
                | '}' :: r4 => some (.members [(key, v)], r4)
                | _ => Option.none)
             | _ => Option.none)
          | _ => Option.none)
       | _ => Option.none)
    | _ => Option.none
  | f + 1, .items, cs =>
    match parseJ f .val cs with
    | some (.val v, r1) =>
      (match jsonWs r1 with
       | ',' :: r2 =>
         (match parseJ f .items r2 with
          | some (.items xs, r3) => some (.items (v :: xs), r3)
          | _ => Option.none)
       | ']' :: r2 => some (.items [v], r2)
       | _ => Option.none)
    | _ => Option.none

/-- `orjson.loads`: parse a full JSON document or raise `JSONDecodeError`. -/
def jsonLoads (s : String) : Except PyErr JVal :=
  match parseJ (2 * (s.length + 1)) .val s.data with
  | some (.val v, rest) => if jsonWs rest = [] then .ok v else .error .jsonDecodeError
  | _ => .error .jsonDecodeError

/-- `orjson.loads(raw)["message"]`: parse the body, then index it with the
string `"message"` — `KeyError` if the object has no such key, `TypeError`
if the parsed value is not a dict. -/
def jsonMessage (raw : String) : Except PyErr JVal :=
  match jsonLoads raw with
  | .error e => .error e
  | .ok (.obj kvs) =>
    match kvs.lookup "message" with
    | some v => .ok v
    | Option.none => .error .keyError
  | .ok _ => .error .typeError

/-! ## The response classifier -/

/-- Modelled from the spec: the repository's `exceptions` module is not
under `src/`; the spec says each exchange-reported error kind carries the
message extracted from the response, so each exception class imported by
`endpoint.py` is one constructor carrying that message. -/
inductive CBErr where
  | coinbaseError (message : JVal)
  | invalidKeyError (message : JVal)
  | invalidRequestError (message : JVal)
  | noAccessError (message : JVal)
  | notFoundError (message : JVal)

/-- An exception escaping `_try_raise`: either a raised Coinbase error or a
Python error from decoding the body. -/
inductive RespErr where
  | py (e : PyErr)
  | cb (e : CBErr)

namespace Endpoint

/-- `Endpoint._try_raise` in `endpoint.py` (and the textually identical
`Endpoint.try_raise` in `endpoints/endpoint.py`): status 200 returns at
once; otherwise `orjson.loads(raw)["message"]` is evaluated first — any
failure there propagates — and then the status is matched against
400/401/403/404/500; any other status falls through the match and the
function returns without raising. -/
def tryRaise (status : Nat) (raw : String) : Except RespErr Unit :=
  if status = 200 then .ok ()
  else
    match jsonMessage raw with
    | .error e => .error (.py e)
    | .ok message =>
      match status with
      | 400 => .error (.cb (.invalidRequestError message))
      | 401 => .error (.cb (.invalidKeyError message))
      | 403 => .error (.cb (.noAccessError message))
      | 404 => .error (.cb (.notFoundError message))
      | 500 => .error (.cb (.coinbaseError message))
      | _ => .ok ()

end Endpoint

/-! ## The dispatcher (`Endpoint._request`) and the connector -/

/-- The `Method` enum of `utils.py`. -/
inductive Method where
  | delete
  | get
  | post
  | put
  deriving DecidableEq

/-- `Method.__str__`: the enum value, the uppercase verb. -/
def methodStr : Method → String
  | .delete => "DELETE"
  | .get => "GET"
  | .post => "POST"
  | .put => "PUT"

/-- `body if body else ""` in `_request`: `None` and the empty string are
falsy, any other string is passed through. -/
def effectiveBody : Option String → String
  | Option.none => ""
  | some s => if s = "" then "" else s

/-- The signature `_request` computes:
`self._sign(endpoint=endpoint, method=str(method), body=body if body else "", timestamp=timestamp)`. -/
def requestSign (secret endpoint : String) (method : Method) (body : Option String)
    (timestamp : String) : Except PyErr String :=
  Endpoint.sign secret endpoint (methodStr method) (effectiveBody body) timestamp

/-- The per-call headers `_request` builds. -/
def requestHeaders (signature timestamp : String) : List (String × String) :=
  [("cb-access-sign", signature), ("cb-access-timestamp", timestamp)]

/-- The session headers set once in `connector` in `connector.py`. -/
def connectorHeaders (key passphrase : String) : List (String × String) :=
  [("accept", "application/json"),
   ("content-type", "application/json"),
   ("cb-access-key", key),
   ("cb-access-passphrase", passphrase)]

/-- One outbound HTTP request as the transport receives it. -/
structure Outbound where
  url : String
  headers : List (String × String)
  data : Option String

/-- The outbound request `_request` issues for a call: the session headers
from client construction merged with the per-call headers, the endpoint as
url and the raw body as payload. -/
def outboundRequest (secret key passphrase endpoint : String) (method : Method)
    (body : Option String) (timestamp : String) : Except PyErr Outbound := do
  let signature ← requestSign secret endpoint method body timestamp
  pure ⟨endpoint, connectorHeaders key passphrase ++ requestHeaders signature timestamp, body⟩

/-! ## Helper lemmas -/

/-- `"".join` of four strings is their concatenation. -/
theorem stringJoinFour (a b c d : String) : String.join [a, b, c, d] = a ++ b ++ c ++ d := by
  simp [String.join]

/-! ## Claim theorems -/

/-- C1: for every secret (that base64-decodes, per the claimed formula), path,
method string, body string and timestamp string, `sign` returns exactly
base64-encode(HMAC-SHA256(base64-decode(secret),
bytes(timestamp ++ method ++ path ++ body))), the four parts concatenated in
that order with no separators; and `sign` is a pure function of its inputs
(repeated calls yield identical output). -/
theorem C1_sign_is_hmac (secret endpoint method body timestamp : String)
    (key : List Nat) (h : b64decodePy secret = .ok key) :
    Endpoint.sign secret endpoint method body timestamp =
      .ok (b64encode (hmacSha256 key (strBytes (timestamp ++ method ++ endpoint ++ body)))) ∧
    Endpoint.sign secret endpoint method body timestamp =
      Endpoint.sign secret endpoint method body timestamp := by
  refine ⟨?_, rfl⟩
  simp [Endpoint.sign, h, stringJoinFour]

/-- C1 witness: the signature of a GET on /accounts under the secret
`"c2VjcmV0"` (base64 of `"secret"`). -/
theorem C1_witness :
    b64decodePy "c2VjcmV0" = .ok [115, 101, 99, 114, 101, 116] ∧
    Endpoint.sign "c2VjcmV0" "/accounts" "GET" "" "1600000000.123" =
      .ok (b64encode (hmacSha256 [115, 101, 99, 114, 101, 116]
        (strBytes ("1600000000.123" ++ "GET" ++ "/accounts" ++ "")))) :=
  ⟨rfl, (C1_sign_is_hmac "c2VjcmV0" "/accounts" "GET" "" "1600000000.123" _ rfl).1⟩

/-- C2 (amended): statuses 200/400/401/403/404/500 are classified as the
claim states whenever message extraction from the body succeeds; but every
other status — 418 included — returns success as well: the match falls
through and no Unclassified error kind exists. -/
theorem C2_try_raise_classification (status : Nat) (raw : String) (msg : JVal)
    (h : jsonMessage raw = .ok msg) :
    Endpoint.tryRaise 200 raw = .ok () ∧
    Endpoint.tryRaise 400 raw = .error (.cb (.invalidRequestError msg)) ∧
    Endpoint.tryRaise 401 raw = .error (.cb (.invalidKeyError msg)) ∧
    Endpoint.tryRaise 403 raw = .error (.cb (.noAccessError msg)) ∧
    Endpoint.tryRaise 404 raw = .error (.cb (.notFoundError msg)) ∧
    Endpoint.tryRaise 500 raw = .error (.cb (.coinbaseError msg)) ∧
    (status ∉ ([200, 400, 401, 403, 404, 500] : List Nat) →
      Endpoint.tryRaise status raw = .ok ()) := by
  refine ⟨by simp [Endpoint.tryRaise], by simp [Endpoint.tryRaise, h],
    by simp [Endpoint.tryRaise, h], by simp [Endpoint.tryRaise, h],
    by simp [Endpoint.tryRaise, h], by simp [Endpoint.tryRaise, h], ?_⟩
  intro hs
  simp only [List.mem_cons, List.not_mem_nil, or_false, not_or] at hs
  obtain ⟨h200, h400, h401, h403, h404, h500⟩ := hs
  simp only [Endpoint.tryRaise, if_neg h200, h]

/-- C2 counterexample: status 418 with a well-formed error body is
classified as success — the claimed Unclassified error kind is never
produced (none exists in the code). -/
theorem C2_counterexample :
    Endpoint.tryRaise 418 "\x7b\"message\":\"boom\"\x7d" = .ok () := rfl

/-- C2 witness: the body `{"message":"boom"}` at statuses 400 and 418. -/
theorem C2_witness :
    jsonMessage "\x7b\"message\":\"boom\"\x7d" = .ok (.str "boom") ∧
    Endpoint.tryRaise 400 "\x7b\"message\":\"boom\"\x7d" =
      .error (.cb (.invalidRequestError (.str "boom"))) ∧
    Endpoint.tryRaise 418 "\x7b\"message\":\"boom\"\x7d" = .ok () :=
  ⟨rfl, (C2_try_raise_classification 418 "\x7b\"message\":\"boom\"\x7d" (.str "boom") rfl).2.1,
    (C2_try_raise_classification 418 "\x7b\"message\":\"boom\"\x7d" (.str "boom") rfl).2.2.2.2.2.2
      (by decide)⟩

/-- C3 (amended): for every non-200 status whose body is not valid JSON or
has no `message` field, the classifier raises the decoding failure itself —
`orjson.loads(raw)["message"]` has no fallback — so the secondary decode
error masks the original HTTP error instead of yielding the status-derived
kind with the raw body text. -/
theorem C3_malformed_body (status : Nat) (raw : String) (e : PyErr)
    (h200 : status ≠ 200) (h : jsonMessage raw = .error e) :
    Endpoint.tryRaise status raw = .error (.py e) := by
  simp [Endpoint.tryRaise, if_neg h200, h]

/-- C3 counterexample: classifying status 400 with body `"not json"` raises
the JSON decode error, not InvalidRequest with the raw body text. -/
theorem C3_counterexample :
    Endpoint.tryRaise 400 "not json" = .error (.py .jsonDecodeError) ∧
    Endpoint.tryRaise 400 "not json" ≠
      .error (.cb (.invalidRequestError (.str "not json"))) := by
  refine ⟨rfl, fun hcon => ?_⟩
  exact RespErr.noConfusion (Except.error.inj hcon)

/-- C3 witness: status 400 with the invalid body `"not json"`. -/
theorem C3_witness :
    (400 : Nat) ≠ 200 ∧ jsonMessage "not json" = .error .jsonDecodeError ∧
    Endpoint.tryRaise 400 "not json" = .error (.py .jsonDecodeError) :=
  ⟨by decide, rfl, C3_malformed_body 400 "not json" .jsonDecodeError (by decide) rfl⟩

/-- C7 (amended): when `base64.b64decode` rejects the stored secret, signing
fails with that propagated binascii error (a ValueError) — there is no
dedicated CredentialError — for all path, method, body and timestamp
inputs; and some secrets that are not valid base64 do not fail at all. -/
theorem C7_invalid_secret (secret endpoint method body timestamp : String)
    (e : PyErr) (h : b64decodePy secret = .error e) :
    Endpoint.sign secret endpoint method body timestamp = .error e := by
  simp [Endpoint.sign, h]

/-- C7 counterexample: the secret `"!"` is not valid base64, yet signing
succeeds — the lenient decoder discards the character and signs with the
empty key; and the secret `"ab"` fails with the binascii error, not with a
CredentialError (no such kind exists in the code). -/
theorem C7_counterexample :
    Endpoint.sign "!" "/profiles" "GET" "" "1" =
      .ok (b64encode (hmacSha256 [] (strBytes "1GET/profiles"))) ∧
    Endpoint.sign "ab" "/profiles" "GET" "" "1" = .error PyErr.binasciiError :=
  ⟨rfl, rfl⟩

/-- C7 witness: the secret `"ab"` (incorrect base64 padding). -/
theorem C7_witness :
    b64decodePy "ab" = .error .binasciiError ∧
    Endpoint.sign "ab" "/fees" "GET" "" "2" = .error .binasciiError :=
  ⟨rfl, C7_invalid_secret "ab" "/fees" "GET" "" "2" .binasciiError rfl⟩

/-- C8: a dispatch with no body — or an empty-string body, which is equally
falsy — signs with the empty string as the body component, and the method
component handed to the signer is the enum's value, the literal uppercase
verb. -/
theorem C8_request_sign_inputs (secret endpoint timestamp : String) (m : Method) :
    requestSign secret endpoint m Option.none timestamp =
      Endpoint.sign secret endpoint (methodStr m) "" timestamp ∧
    requestSign secret endpoint m (some "") timestamp =
      Endpoint.sign secret endpoint (methodStr m) "" timestamp ∧
    methodStr Method.get = "GET" ∧ methodStr Method.post = "POST" ∧
    methodStr Method.put = "PUT" ∧ methodStr Method.delete = "DELETE" := by
  refine ⟨rfl, ?_, rfl, rfl, rfl, rfl⟩
  simp [requestSign, effectiveBody]

/-- C9: the outbound request of a dispatched call carries exactly the
session headers (accept, content-type, key, passphrase) and the per-call
headers (signature, timestamp), with the endpoint as url and the body as
payload; and outside the `cb-access-sign` header the outbound data is
identical whatever the secret — only the derived signature depends on it,
so the secret itself is never transmitted. -/
theorem C9_secret_not_in_outbound (s1 s2 key passphrase endpoint : String)
    (m : Method) (body : Option String) (ts : String) (o1 o2 : Outbound)
    (h1 : outboundRequest s1 key passphrase endpoint m body ts = .ok o1)
    (h2 : outboundRequest s2 key passphrase endpoint m body ts = .ok o2) :
    (∃ sig, requestSign s1 endpoint m body ts = .ok sig ∧
      o1.headers = connectorHeaders key passphrase ++ requestHeaders sig ts) ∧
    o1.headers.map Prod.fst =
      ["accept", "content-type", "cb-access-key", "cb-access-passphrase",
       "cb-access-sign", "cb-access-timestamp"] ∧
    o1.url = endpoint ∧ o1.data = body ∧
    o1.headers.filter (fun kv => kv.1 != "cb-access-sign") =
      o2.headers.filter (fun kv => kv.1 != "cb-access-sign") := by
  cases hsig1 : requestSign s1 endpoint m body ts with
  | error e => simp [outboundRequest, hsig1] at h1
  | ok sig1 =>
    cases hsig2 : requestSign s2 endpoint m body ts with
    | error e => simp [outboundRequest, hsig2] at h2
    | ok sig2 =>
      simp [outboundRequest, hsig1] at h1
      simp [outboundRequest, hsig2] at h2
      subst h1; subst h2
      refine ⟨⟨sig1, rfl, rfl⟩, ?_, rfl, rfl, ?_⟩
      · simp [connectorHeaders, requestHeaders]
      · simp [connectorHeaders, requestHeaders, List.filter]

/-- The outbound request of the C9 witness under a given signature. -/
def outboundW (sig : String) : Outbound :=
  ⟨"/fees", connectorHeaders "k" "p" ++ requestHeaders sig "1", Option.none⟩

/-- C9 witness: two dispatches of the same GET on /fees under the secrets
`"c2VjcmV0"` and `""` differ only in the signature header. -/
theorem C9_witness :
    outboundRequest "c2VjcmV0" "k" "p" "/fees" .get Option.none "1" =
      .ok (outboundW (b64encode (hmacSha256 [115, 101, 99, 114, 101, 116]
        (strBytes "1GET/fees")))) ∧
    outboundRequest "" "k" "p" "/fees" .get Option.none "1" =
      .ok (outboundW (b64encode (hmacSha256 [] (strBytes "1GET/fees")))) ∧
    (outboundW (b64encode (hmacSha256 [115, 101, 99, 114, 101, 116]
        (strBytes "1GET/fees")))).headers.filter (fun kv => kv.1 != "cb-access-sign") =
      (outboundW (b64encode (hmacSha256 [] (strBytes "1GET/fees")))).headers.filter
        (fun kv => kv.1 != "cb-access-sign") :=
  ⟨rfl, rfl,
    (C9_secret_not_in_outbound "c2VjcmV0" "" "k" "p" "/fees" .get Option.none "1"
      (outboundW (b64encode (hmacSha256 [115, 101, 99, 114, 101, 116]
        (strBytes "1GET/fees"))))
      (outboundW (b64encode (hmacSha256 [] (strBytes "1GET/fees")))) rfl rfl).2.2.2.2⟩

/-! ## The parameter-builder analysis -/

/-- What the `match value` of `_buildup` does to one entry: `none` means the
converter call raises `TypeError`; `some Option.none` means the key is
skipped; `some (some x)` means `x` is stored under the key. -/
def entryStep : Param → Option (Option PPrim)
  | .val .none => some Option.none
  | .pair .none _ => some Option.none
  | .val (.tuple [.none, _]) => some Option.none
  | .val (.list [.none, _]) => some Option.none
  | .pair p f => some (some (f p))
  | .val (.tuple [_, _]) => Option.none
  | .val (.list [_, _]) => Option.none
  | .val p => some (some p)

/-- A parameter value the builder treats as absent: `None`, or any
2-element sequence whose first element is `None`. -/
def Param.isAbsent : Param → Bool
  | .val .none => true
  | .pair .none _ => true
  | .val (.tuple [.none, _]) => true
  | .val (.list [.none, _]) => true
  | _ => false

/-- A 2-element Python sequence — what the pattern `(param, func)`
destructures. -/
def PPrim.isTwoSeq : PPrim → Bool
  | .tuple [_, _] => true
  | .list [_, _] => true
  | _ => false

/-- The primitive stored for a parameter value if it were kept unprocessed
(for a pair, the converted value). -/
def Param.unwrap : Param → PPrim
  | .val p => p
  | .pair p f => f p

/-- One step of the `_buildup` loop, characterised through `entryStep`. -/
theorem buildupProcess_cons (k : String) (v : Param) (rest : List (String × Param)) :
    Endpoint.buildupProcess ((k, v) :: rest) =
      match entryStep v with
      | Option.none => .error PyErr.typeError
      | some Option.none => Endpoint.buildupProcess rest
      | some (some x) => (Endpoint.buildupProcess rest).map (fun tail => (k, x) :: tail) := by
  rcases v with p | ⟨p, f⟩
  · rcases p with _ | b | n | s | ⟨_ | ⟨a, _ | ⟨b, _ | ⟨c, tl⟩⟩⟩⟩ | ⟨_ | ⟨a, _ | ⟨b, _ | ⟨c, tl⟩⟩⟩⟩ <;>
      first
        | rfl
        | (cases a <;> rfl)
  · cases p <;> rfl

/-- `entryStep` against the absence predicate and the two storing shapes. -/
theorem entryStep_spec (e : Param) :
    (e.isAbsent = true ↔ entryStep e = some Option.none) ∧
    (∀ p f, e = .pair p f → p ≠ .none → entryStep e = some (some (f p))) ∧
    (∀ p, e = .val p → p.isTwoSeq = false → p ≠ .none → entryStep e = some (some p)) := by
  rcases e with p | ⟨p, f⟩
  · rcases p with _ | b | n | s | ⟨_ | ⟨a, _ | ⟨b, _ | ⟨c, tl⟩⟩⟩⟩ | ⟨_ | ⟨a, _ | ⟨b, _ | ⟨c, tl⟩⟩⟩⟩ <;>
      first
        | (cases a <;> simp [entryStep, Param.isAbsent, PPrim.isTwoSeq])
        | (simp [entryStep, Param.isAbsent, PPrim.isTwoSeq])
  · cases p <;> simp [entryStep, Param.isAbsent, PPrim.isTwoSeq]

/-- Every key of the processed dict comes from the parameters. -/
theorem buildupProcess_keys (ps : List (String × Param)) (pr : List (String × PPrim))
    (h : Endpoint.buildupProcess ps = .ok pr) :
    pr.map Prod.fst ⊆ ps.map Prod.fst := by
  induction ps generalizing pr with
  | nil =>
    simp only [Endpoint.buildupProcess] at h
    cases h
    simp
  | cons hd tl ih =>
    obtain ⟨k, v⟩ := hd
    rw [buildupProcess_cons] at h
    cases hstep : entryStep v with
    | none => rw [hstep] at h; cases h
    | some o =>
      rw [hstep] at h
      cases o with
      | none => exact (ih pr h).trans (by simp)
      | some x =>
        cases hrec : Endpoint.buildupProcess tl with
        | error e => rw [hrec] at h; cases h
        | ok tail =>
          rw [hrec] at h
          simp only [Except.map] at h
          cases h
          intro a ha
          simp only [List.map_cons, List.mem_cons] at ha ⊢
          rcases ha with rfl | ha
          · exact Or.inl rfl
          · exact Or.inr (ih tail hrec ha)

/-- Membership in the processed dict, entry by entry: an absent value
leaves no key, a pair with a present value stores the converted value, a
plain value that is not a 2-element sequence is stored as is. -/
theorem buildupProcess_membership (ps : List (String × Param)) (pr : List (String × PPrim))
    (hok : Endpoint.buildupProcess ps = .ok pr)
    (hnodup : (ps.map Prod.fst).Nodup)
    (k : String) (e : Param) (hmem : (k, e) ∈ ps) :
    (e.isAbsent = true → k ∉ pr.map Prod.fst) ∧
    (∀ p f, e = .pair p f → p ≠ .none → (k, f p) ∈ pr) ∧
    (∀ p, e = .val p → p.isTwoSeq = false → p ≠ .none → (k, p) ∈ pr) := by
  induction ps generalizing pr with
  | nil => simp at hmem
  | cons hd tl ih =>
    obtain ⟨kh, vh⟩ := hd
    rw [List.map_cons, List.nodup_cons] at hnodup
    obtain ⟨hknot, hnd⟩ := hnodup
    rw [buildupProcess_cons] at hok
    rcases List.mem_cons.mp hmem with heq | hmemtl
    · obtain ⟨rfl, rfl⟩ := Prod.mk.injEq .. ▸ And.intro (congrArg Prod.fst heq) (congrArg Prod.snd heq)
      cases hstep : entryStep e with
      | none => rw [hstep] at hok; cases hok
      | some o =>
        rw [hstep] at hok
        cases o with
        | none =>
          refine ⟨fun _ hker => hknot (buildupProcess_keys tl pr hok hker), ?_, ?_⟩
          · intro p f hef hpn
            exact absurd (((entryStep_spec e).2.1 p f hef hpn).symm.trans hstep) (by simp)
          · intro p hef h2 hpn
            exact absurd (((entryStep_spec e).2.2 p hef h2 hpn).symm.trans hstep) (by simp)
        | some x =>
          cases hrec : Endpoint.buildupProcess tl with
          | error er => rw [hrec] at hok; cases hok
          | ok tail =>
            rw [hrec] at hok
            simp only [Except.map] at hok
            cases hok
            refine ⟨?_, ?_, ?_⟩
            · intro habs
              exact absurd (((entryStep_spec e).1.mp habs).symm.trans hstep) (by simp)
            · intro p f hef hpn
              have := ((entryStep_spec e).2.1 p f hef hpn).symm.trans hstep
              simp only [Option.some.injEq] at this
              rw [this]
              exact List.mem_cons_self _ _
            · intro p hef h2 hpn
              have := ((entryStep_spec e).2.2 p hef h2 hpn).symm.trans hstep
              simp only [Option.some.injEq] at this
              rw [this]
              exact List.mem_cons_self _ _
    · have hkin : k ∈ tl.map Prod.fst := List.mem_map.mpr ⟨(k, e), hmemtl, rfl⟩
      have hkne : k ≠ kh := fun hc => hknot (hc ▸ hkin)
      cases hstep : entryStep vh with
      | none => rw [hstep] at hok; cases hok
      | some o =>
        rw [hstep] at hok
        cases o with
        | none => exact ih pr hok hnd hmemtl
        | some x =>
          cases hrec : Endpoint.buildupProcess tl with
          | error er => rw [hrec] at hok; cases hok
          | ok tail =>
            rw [hrec] at hok
            simp only [Except.map] at hok
            cases hok
            obtain ⟨c1, c2, c3⟩ := ih tail hrec hnd hmemtl
            refine ⟨?_, ?_, ?_⟩
            · intro habs
              simp only [List.map_cons, List.mem_cons]
              rintro (rfl | hker)
              · exact hkne rfl
              · exact c1 habs hker
            · intro p f hef hpn
              exact List.mem_cons_of_mem _ (c2 p f hef hpn)
            · intro p hef h2 hpn
              exact List.mem_cons_of_mem _ (c3 p hef h2 hpn)

/-- C4 (amended): over a parameter dict (distinct keys), an entry whose
value is absent — `None`, or a 2-element sequence whose first element is
`None` — produces no key in the processed dict the JSON body serialises; a
`(value, converter)` pair with a present value stores the converted value;
a present plain value that is not a 2-element sequence is stored unchanged.
A present plain 2-element sequence, however, is destructured as if it were
a `(value, converter)` pair instead of appearing as itself. -/
theorem C4_buildup_omission (ps : List (String × Param)) (pr : List (String × PPrim))
    (hok : Endpoint.buildupProcess ps = .ok pr)
    (hnodup : (ps.map Prod.fst).Nodup)
    (k : String) (e : Param) (hmem : (k, e) ∈ ps) :
    (e.isAbsent = true → k ∉ pr.map Prod.fst) ∧
    (∀ p f, e = .pair p f → p ≠ .none → (k, f p) ∈ pr) ∧
    (∀ p, e = .val p → p.isTwoSeq = false → p ≠ .none → (k, p) ∈ pr) ∧
    Endpoint.buildup ps = jsonDumpsObj (decamelizeObj pr) := by
  obtain ⟨c1, c2, c3⟩ := buildupProcess_membership ps pr hok hnodup k e hmem
  exact ⟨c1, c2, c3, by rw [Endpoint.buildup, hok]; rfl⟩

/-- C4 counterexample: the present plain value `[None, 5]` — a 2-element
list, no converter supplied — matches the `(None, _)` pattern and its key
is dropped from the body, although the claim requires every present value
to appear. -/
theorem C4_counterexample :
    Endpoint.buildup [("a", Param.val (PPrim.list [PPrim.none, PPrim.int 5]))] =
      .ok "\x7b\x7d" := rfl

/-- The parameters of the C4 witness. -/
def psW : List (String × Param) :=
  [("a", Param.val (PPrim.int 1)), ("b", Param.val PPrim.none),
   ("c", Param.pair (PPrim.int 2) (fun _ => PPrim.str "two"))]

/-- The processed dict of the C4 witness. -/
def prW : List (String × PPrim) := [("a", PPrim.int 1), ("c", PPrim.str "two")]

/-- C4 witness: of `a=1, b=None, c=(2, converter)` the body keeps `a`
unchanged, drops `b`, and stores the converted value under `c`. -/
theorem C4_witness :
    Endpoint.buildupProcess psW = .ok prW ∧
    ("b" ∉ prW.map Prod.fst) ∧
    (("c", PPrim.str "two") ∈ prW) ∧
    (("a", PPrim.int 1) ∈ prW) := by
  have hnodup : (psW.map Prod.fst).Nodup := by
    show (["a", "b", "c"] : List String).Nodup
    decide
  refine ⟨rfl, ?_, ?_, ?_⟩
  · exact (C4_buildup_omission psW prW rfl hnodup "b" (Param.val PPrim.none)
      (List.mem_cons_of_mem _ (List.mem_cons_self _ _))).1 rfl
  · exact (C4_buildup_omission psW prW rfl hnodup "c"
      (Param.pair (PPrim.int 2) (fun _ => PPrim.str "two"))
      (List.mem_cons_of_mem _ (List.mem_cons_of_mem _ (List.mem_cons_self _ _)))).2.1
      (PPrim.int 2) _ rfl (fun hc => PPrim.noConfusion hc)
  · exact (C4_buildup_omission psW prW rfl hnodup "a" (Param.val (PPrim.int 1))
      (List.mem_cons_self _ _)).2.2.1 (PPrim.int 1) rfl rfl (fun hc => PPrim.noConfusion hc)

/-- A plain value that is not `None` survives the `is not None` filter. -/
theorem isNoneV_val (p : PPrim) (h : p ≠ .none) : (Param.val p).isNoneV = false := by
  cases p <;> first | exact absurd rfl h | rfl

/-- On plain non-2-sequence values, the `_buildup` loop is exactly the
`is not None` filter. -/
theorem buildupProcess_plain (ps : List (String × Param))
    (h : ∀ kv ∈ ps, ∃ p, kv.2 = Param.val p ∧ p.isTwoSeq = false) :
    Endpoint.buildupProcess ps =
      .ok ((ps.filter (fun kv => !kv.2.isNoneV)).map (fun kv => (kv.1, kv.2.unwrap))) := by
  induction ps with
  | nil => rfl
  | cons hd tl ih =>
    obtain ⟨k, v⟩ := hd
    obtain ⟨p, hp, h2⟩ := h (k, v) (List.mem_cons_self _ _)
    simp only at hp
    subst hp
    have ihtl := ih (fun kv hkv => h kv (List.mem_cons_of_mem _ hkv))
    rw [buildupProcess_cons]
    by_cases hpn : p = PPrim.none
    · subst hpn
      rw [show entryStep (.val .none) = some Option.none from rfl, ihtl]
      simp [List.filter_cons, Param.isNoneV]
    · rw [(entryStep_spec (.val p)).2.2 p rfl h2 hpn, ihtl]
      simp [Except.map, List.filter_cons, isNoneV_val p hpn, Param.unwrap]

/-- Serialising a dict of plain parameter values gives the same parts as
serialising the unwrapped primitives. -/
theorem mapM_dump_eq (l : List (String × Param))
    (h : ∀ kv ∈ l, ∃ p, kv.2 = Param.val p) :
    (decamelizeObjP l).mapM
        (fun kv => (jsonDumpsParam kv.2).map (fun sv => jsonQuote kv.1 ++ ":" ++ sv)) =
      (decamelizeObj (l.map (fun kv => (kv.1, kv.2.unwrap)))).mapM
        (fun kv => (jsonDumpsVal kv.2).map (fun sv => jsonQuote kv.1 ++ ":" ++ sv)) := by
  induction l with
  | nil => rfl
  | cons hd tl ih =>
    obtain ⟨k, v⟩ := hd
    obtain ⟨p, hp⟩ := h (k, v) (List.mem_cons_self _ _)
    simp only at hp
    subst hp
    have ihtl := ih (fun kv hkv => h kv (List.mem_cons_of_mem _ hkv))
    simp only [decamelizeObjP, decamelizeObj, List.map_cons, List.mapM_cons] at ihtl ⊢
    rw [show jsonDumpsParam (Param.val p) = jsonDumpsVal p from rfl,
      show (Param.val p).unwrap = p from rfl, ihtl]

/-- C10 (amended): on parameter mappings whose entries are all plain
primitive values other than 2-element sequences, the two builders return
the same JSON body; on `(value, converter)` pairs they differ —
`endpoint.py` applies or omits the converter while `endpoints/endpoint.py`
hands the tuple to the serializer. -/
theorem C10_builders_agree_on_plain (ps : List (String × Param))
    (h : ∀ kv ∈ ps, ∃ p, kv.2 = Param.val p ∧ p.isTwoSeq = false) :
    Endpoints.Endpoint.buildup ps = Endpoint.buildup ps := by
  have hplain : ∀ kv ∈ ps.filter (fun kv => !kv.2.isNoneV), ∃ p, kv.2 = Param.val p :=
    fun kv hkv => (h kv (List.mem_filter.mp hkv).1).elim (fun p hp => ⟨p, hp.1⟩)
  simp only [Endpoint.buildup, buildupProcess_plain ps h]
  simp only [Endpoints.Endpoint.buildup, jsonDumpsObjP, jsonDumpsObj]
  rw [mapM_dump_eq _ hplain]
  rfl

/-- C10 counterexample: on the single entry `c=(None, converter)` the
builder of `endpoint.py` omits the key and returns the empty body, while
the builder of `endpoints/endpoint.py` keeps the tuple — whose converter
is not JSON serializable — and raises `TypeError`: the two bodies differ. -/
theorem C10_counterexample :
    Endpoint.buildup [("c", Param.pair PPrim.none (fun p => p))] = .ok "\x7b\x7d" ∧
    Endpoints.Endpoint.buildup [("c", Param.pair PPrim.none (fun p => p))] =
      .error PyErr.typeError := ⟨rfl, rfl⟩

/-- C10 witness: on `a=1, b=None` the two builders both produce the body
keeping only `a`. -/
theorem C10_witness :
    Endpoints.Endpoint.buildup [("a", Param.val (PPrim.int 1)), ("b", Param.val PPrim.none)] =
      Endpoint.buildup [("a", Param.val (PPrim.int 1)), ("b", Param.val PPrim.none)] ∧
    Endpoint.buildup [("a", Param.val (PPrim.int 1)), ("b", Param.val PPrim.none)] =
      .ok "\x7b\"a\":1\x7d" := by
  refine ⟨C10_builders_agree_on_plain _ ?_, rfl⟩
  intro kv hkv
  rcases List.mem_cons.mp hkv with rfl | hkv2
  · exact ⟨PPrim.int 1, rfl, rfl⟩
  · rcases List.mem_cons.mp hkv2 with rfl | hkv3
    · exact ⟨PPrim.none, rfl, rfl⟩
    · simp at hkv3

/-! ## The decimal codec (`Converter._structure_decimal` /
`Converter._unstructure_decimal`) -/

/-- A `decimal.Decimal` value: sign, coefficient digits (big-endian, as the
CPython implementation stores them) and exponent.  The numeric fragment is
modelled; the special values Infinity and NaN, underscore separators and
surrounding whitespace do not occur in exchange wire strings and are left
out. -/
structure Dec where
  sign : Bool
  digits : List Nat
  exp : Int
  deriving DecidableEq

/-- The numeric value of big-endian digits. -/
def digitsVal (ds : List Nat) : Nat :=
  ds.foldl (fun a d => 10 * a + d) 0

/-- The exact rational value of a decimal. -/
def Dec.val (d : Dec) : ℚ :=
  (if d.sign then -1 else 1) * (digitsVal d.digits : ℚ) * (10 : ℚ) ^ d.exp

/-- The digit value of a digit character. -/
def charToDigit (c : Char) : Nat := c.toNat - 48

/-- Normalisation of a parsed coefficient: leading zeros are stripped, an
all-zero coefficient becomes the single digit 0. -/
def stripZeros (ds : List Nat) : List Nat :=
  match ds.dropWhile (fun x => x == 0) with
  | [] => [0]
  | r => r

/-- An optional leading sign. -/
def parseDecSign : List Char → Bool × List Char
  | '-' :: r => (true, r)
  | '+' :: r => (false, r)
  | r => (false, r)

/-- The exponent suffix of a decimal literal: empty input means exponent 0;
`e`/`E`, an optional sign and at least one digit consume the whole rest. -/
def parseDecExp : List Char → Option Int
  | [] => some 0
  | c :: r =>
    if c = 'e' ∨ c = 'E' then
      let (esign, r2) := parseDecSign r
      let eds := r2.takeWhile Char.isDigit
      let rest := r2.dropWhile Char.isDigit
      if eds.isEmpty ∨ ¬rest.isEmpty then Option.none
      else some (if esign then -(digitsToNat eds : Int) else (digitsToNat eds : Int))
    else Option.none

/-- `Decimal(obj)` on a numeric string: optional sign, integer digits,
optional fraction, optional exponent; at least one digit must be present;
the coefficient keeps every fractional digit (no precision loss) and the
exponent counts the fractional digits. -/
def parseDec (s : String) : Option Dec :=
  let (sign, cs1) := parseDecSign s.data
  let ds := cs1.takeWhile Char.isDigit
  let cs2 := cs1.dropWhile Char.isDigit
  let fr :=
    match cs2 with
    | '.' :: r => (r.takeWhile Char.isDigit, r.dropWhile Char.isDigit)
    | r => (([] : List Char), r)
  if ds.isEmpty ∧ fr.1.isEmpty then Option.none
  else
    match parseDecExp fr.2 with
    | some ev => some ⟨sign, stripZeros ((ds ++ fr.1).map charToDigit), ev - fr.1.length⟩
    | Option.none => Option.none

/-- The decimal digits of a number, most significant first; the first
argument is fuel and any value above the number works. -/
def natCharsAux : Nat → Nat → List Char
  | 0, _ => []
  | f + 1, m =>
    if m < 10 then [Nat.digitChar m]
    else natCharsAux f (m / 10) ++ [Nat.digitChar (m % 10)]

/-- The decimal digits of a number, most significant first. -/
def natChars (m : Nat) : List Char := natCharsAux (m + 1) m

/-- `"%+d"`: an always-signed integer. -/
def signedChars (v : Int) : List Char :=
  if 0 ≤ v then '+' :: natChars v.toNat else '-' :: natChars (-v).toNat

/-- `str(Decimal)`: the to-scientific-string algorithm of `decimal.py` —
plain placement of the point when the exponent is non-positive and the
adjusted exponent is above -6, scientific form with one leading digit
otherwise. -/
def decStr (d : Dec) : String :=
  let ds := d.digits.map Nat.digitChar
  let n : Int := ds.length
  let leftdigits : Int := d.exp + n
  let dotplace : Int := if d.exp ≤ 0 ∧ -6 < leftdigits then leftdigits else 1
  let body :=
    if dotplace ≤ 0 then
      '0' :: '.' :: List.replicate (-dotplace).toNat '0' ++ ds
    else if n ≤ dotplace then
      ds ++ List.replicate (dotplace - n).toNat '0'
    else
      ds.take dotplace.toNat ++ '.' :: ds.drop dotplace.toNat
  let expPart :=
    if leftdigits = dotplace then ([] : List Char)
    else 'E' :: signedChars (leftdigits - dotplace)
  String.mk ((if d.sign then ['-'] else []) ++ body ++ expPart)

/-- `Converter._structure_decimal`: `Decimal(obj)`, raising
`decimal.InvalidOperation` (modelled as a ValueError-class Python error)
on a malformed string. -/
def structure_decimal (s : String) : Except PyErr Dec :=
  match parseDec s with
  | some d => .ok d
  | Option.none => .error .valueError

/-- `Converter._unstructure_decimal`: `str(obj)`. -/
def unstructure_decimal (d : Dec) : String := decStr d

/-! ## The decimal round trip -/

theorem digitChar_spec (d : Nat) (h : d < 10) :
    (Nat.digitChar d).isDigit = true ∧ charToDigit (Nat.digitChar d) = d ∧
    Nat.digitChar d ≠ '-' ∧ Nat.digitChar d ≠ '+' := by
  interval_cases d <;> exact ⟨rfl, rfl, by decide, by decide⟩

theorem isDigit_bound (c : Char) (h : c.isDigit = true) : charToDigit c < 10 := by
  simp only [Char.isDigit, Bool.and_eq_true, decide_eq_true_eq, Char.le_def,
    UInt32.le_def, BitVec.le_def] at h
  simp only [show ((48 : UInt32)).toBitVec.toNat = 48 from rfl,
    show ((57 : UInt32)).toBitVec.toNat = 57 from rfl] at h
  simp only [charToDigit, Char.toNat, UInt32.toNat]
  omega

theorem isDigit_ne_sign (c : Char) (h : c.isDigit = true) : c ≠ '-' ∧ c ≠ '+' := by
  constructor <;> rintro rfl <;> simp [Char.isDigit] at h

theorem digitsVal_go (a : Nat) (ds : List Nat) :
    ds.foldl (fun x d => 10 * x + d) a = a * 10 ^ ds.length + digitsVal ds := by
  induction ds generalizing a with
  | nil => simp [digitsVal]
  | cons d t ih =>
    show t.foldl _ (10 * a + d) = _
    rw [ih (10 * a + d)]
    have hdt : digitsVal (d :: t) = d * 10 ^ t.length + digitsVal t := by
      show t.foldl _ (10 * 0 + d) = _
      rw [ih (10 * 0 + d)]
      ring_nf
    rw [hdt, List.length_cons]
    ring

theorem digitsVal_append (l1 l2 : List Nat) :
    digitsVal (l1 ++ l2) = digitsVal l1 * 10 ^ l2.length + digitsVal l2 := by
  show (l1 ++ l2).foldl _ 0 = _
  rw [List.foldl_append, digitsVal_go]
  rfl

theorem digitsVal_dropZeros (ds : List Nat) :
    digitsVal (ds.dropWhile (fun x => x == 0)) = digitsVal ds := by
  induction ds with
  | nil => rfl
  | cons d t ih =>
    by_cases hd : d = 0
    · subst hd
      rw [List.dropWhile_cons_of_pos (by simp), ih]
      show _ = digitsVal ([0] ++ t)
      rw [digitsVal_append]
      simp [digitsVal]
    · rw [List.dropWhile_cons_of_neg (by simp [hd])]

theorem digitsVal_stripZeros (ds : List Nat) :
    digitsVal (stripZeros ds) = digitsVal ds := by
  unfold stripZeros
  rcases hd : ds.dropWhile (fun x => x == 0) with _ | ⟨r, rs⟩
  · have h2 := digitsVal_dropZeros ds
    rw [hd] at h2
    rw [← h2]
    rfl
  · have h2 := digitsVal_dropZeros ds
    rw [hd] at h2
    rw [← h2]

theorem stripZeros_ne_nil (ds : List Nat) : stripZeros ds ≠ [] := by
  unfold stripZeros
  rcases hd : ds.dropWhile (fun x => x == 0) with _ | ⟨r, rs⟩ <;> simp

theorem charsToDigits_map (ds : List Nat) (h : ∀ x ∈ ds, x < 10) :
    (ds.map Nat.digitChar).map charToDigit = ds := by
  rw [List.map_map]
  conv_rhs => rw [show ds = ds.map id from (List.map_id ds).symm]
  exact List.map_congr_left (fun x hx => (digitChar_spec x (h x hx)).2.1)

theorem takeWhile_append_all (p : Char → Bool) (l1 l2 : List Char) (h : ∀ c ∈ l1, p c = true) :
    (l1 ++ l2).takeWhile p = l1 ++ l2.takeWhile p ∧ (l1 ++ l2).dropWhile p = l2.dropWhile p := by
  induction l1 with
  | nil => exact ⟨by simp, by simp⟩
  | cons c t ih =>
    have hc : p c = true := h c (List.mem_cons_self _ _)
    have iht := ih (fun x hx => h x (List.mem_cons_of_mem _ hx))
    simp only [List.cons_append, List.takeWhile_cons, List.dropWhile_cons, hc, if_pos]
    exact ⟨by rw [iht.1], by rw [iht.2]⟩

theorem digitsToNat_eq (cs : List Char) : digitsToNat cs = digitsVal (cs.map charToDigit) := by
  simp [digitsToNat, digitsVal, List.foldl_map, charToDigit]

theorem natCharsAux_spec (f : Nat) : ∀ m, m < f →
    (∀ c ∈ natCharsAux f m, c.isDigit = true) ∧ digitsToNat (natCharsAux f m) = m ∧
    natCharsAux f m ≠ [] := by
  induction f with
  | zero => intro m hm; omega
  | succ f ih =>
    intro m hm
    by_cases h10 : m < 10
    · unfold natCharsAux
      rw [if_pos h10]
      refine ⟨?_, ?_, by simp⟩
      · intro c hc
        simp only [List.mem_singleton] at hc
        subst hc
        exact (digitChar_spec m h10).1
      · rw [digitsToNat_eq]
        simp only [List.map_cons, List.map_nil]
        rw [(digitChar_spec m h10).2.1]
        simp [digitsVal]
    · unfold natCharsAux
      rw [if_neg h10]
      have hdiv : m / 10 < f := by omega
      obtain ⟨ha, hv, hne⟩ := ih (m / 10) hdiv
      refine ⟨?_, ?_, by simp⟩
      · intro c hc
        rcases List.mem_append.mp hc with h | h
        · exact ha c h
        · simp only [List.mem_singleton] at h
          subst h
          exact (digitChar_spec _ (Nat.mod_lt _ (by norm_num))).1
      · rw [digitsToNat_eq, List.map_append, digitsVal_append]
        rw [digitsToNat_eq] at hv
        simp only [List.map_cons, List.map_nil]
        rw [(digitChar_spec _ (Nat.mod_lt _ (by norm_num))).2.1, hv]
        show m / 10 * 10 ^ 1 + digitsVal [m % 10] = m
        have : digitsVal [m % 10] = m % 10 := by simp [digitsVal]
        rw [this]
        omega

theorem natChars_spec (m : Nat) :
    (∀ c ∈ natChars m, c.isDigit = true) ∧ digitsToNat (natChars m) = m ∧ natChars m ≠ [] :=
  natCharsAux_spec (m + 1) m (Nat.lt_succ_self m)

theorem parseDecExp_signed (v : Int) : parseDecExp ('E' :: signedChars v) = some v := by
  by_cases hv : 0 ≤ v
  · have hs : signedChars v = '+' :: natChars v.toNat := by
      unfold signedChars
      rw [if_pos hv]
    rw [hs]
    obtain ⟨ha, hval, hne⟩ := natChars_spec v.toNat
    have htw := takeWhile_append_all Char.isDigit (natChars v.toNat) [] ha
    simp only [List.append_nil] at htw
    simp only [parseDecExp, parseDecSign, htw.1, htw.2]
    rw [if_pos (by decide), if_neg (by simp [List.isEmpty_iff, hne])]
    simp [hval, Int.toNat_of_nonneg hv]
  · have hs : signedChars v = '-' :: natChars (-v).toNat := by
      unfold signedChars
      rw [if_neg hv]
    rw [hs]
    obtain ⟨ha, hval, hne⟩ := natChars_spec (-v).toNat
    have htw := takeWhile_append_all Char.isDigit (natChars (-v).toNat) [] ha
    simp only [List.append_nil] at htw
    simp only [parseDecExp, parseDecSign, htw.1, htw.2]
    rw [if_pos (by decide), if_neg (by simp [List.isEmpty_iff, hne])]
    simp only [List.takeWhile_nil, List.append_nil, hval, Option.some.injEq, if_true]
    omega

def signPrefix (b : Bool) : List Char := if b then ['-'] else []

theorem parseDecSignLead (b : Bool) (c : Char) (r : List Char) (hc : c.isDigit = true) :
    parseDecSign (signPrefix b ++ c :: r) = (b, c :: r) := by
  obtain ⟨h1, h2⟩ := isDigit_ne_sign c hc
  cases b
  · show parseDecSign (c :: r) = _
    unfold parseDecSign
    split <;> simp_all
  · rfl

theorem parseDec_core_dot (b : Bool) (ics fcs etail : List Char) (v : Int)
    (hi : ∀ c ∈ ics, c.isDigit = true) (hf : ∀ c ∈ fcs, c.isDigit = true)
    (hne : ics ≠ [])
    (hstop : etail.takeWhile Char.isDigit = [] ∧ etail.dropWhile Char.isDigit = etail)
    (hexp : parseDecExp etail = some v) :
    parseDec (String.mk (signPrefix b ++ (ics ++ ('.' :: (fcs ++ etail))))) =
      some ⟨b, stripZeros ((ics ++ fcs).map charToDigit), v - fcs.length⟩ := by
  rcases ics with _ | ⟨c0, ics'⟩
  · exact absurd rfl hne
  have hc0 : c0.isDigit = true := hi c0 (List.mem_cons_self _ _)
  simp only [parseDec, List.cons_append]
  rw [parseDecSignLead b c0 _ hc0]
  have htw := takeWhile_append_all Char.isDigit (c0 :: ics') ('.' :: (fcs ++ etail)) hi
  simp only [List.cons_append] at htw
  simp only [htw.1, htw.2]
  rw [List.takeWhile_cons_of_neg (by decide), List.dropWhile_cons_of_neg (by decide)]
  have htwf := takeWhile_append_all Char.isDigit fcs etail hf
  simp only [htwf.1, htwf.2, hstop.1, hstop.2, List.append_nil]
  rw [if_neg (by simp)]
  rw [hexp]
  simp

theorem parseDec_core_plain (b : Bool) (ics : List Char)
    (hi : ∀ c ∈ ics, c.isDigit = true) (hne : ics ≠ []) :
    parseDec (String.mk (signPrefix b ++ ics)) =
      some ⟨b, stripZeros (ics.map charToDigit), 0⟩ := by
  rcases ics with _ | ⟨c0, ics'⟩
  · exact absurd rfl hne
  have hc0 : c0.isDigit = true := hi c0 (List.mem_cons_self _ _)
  simp only [parseDec, List.cons_append]
  rw [parseDecSignLead b c0 _ hc0]
  have htw := takeWhile_append_all Char.isDigit (c0 :: ics') [] hi
  simp only [List.append_nil] at htw
  simp only [htw.1, htw.2]
  simp only [List.takeWhile_nil, List.dropWhile_nil]
  rw [if_neg (by simp)]
  simp [parseDecExp]

theorem parseDec_core_exp (b : Bool) (ics : List Char) (v : Int)
    (hi : ∀ c ∈ ics, c.isDigit = true) (hne : ics ≠ []) :
    parseDec (String.mk (signPrefix b ++ (ics ++ ('E' :: signedChars v)))) =
      some ⟨b, stripZeros (ics.map charToDigit), v⟩ := by
  rcases ics with _ | ⟨c0, ics'⟩
  · exact absurd rfl hne
  have hc0 : c0.isDigit = true := hi c0 (List.mem_cons_self _ _)
  simp only [parseDec, List.cons_append]
  rw [parseDecSignLead b c0 _ hc0]
  have htw := takeWhile_append_all Char.isDigit (c0 :: ics') ('E' :: signedChars v) hi
  simp only [List.cons_append] at htw
  simp only [htw.1, htw.2]
  rw [List.takeWhile_cons_of_neg (by decide), List.dropWhile_cons_of_neg (by decide)]
  rw [show (match 'E' :: signedChars v with
    | '.' :: r => (List.takeWhile Char.isDigit r, List.dropWhile Char.isDigit r)
    | r => (([] : List Char), r)) = (([] : List Char), 'E' :: signedChars v) from rfl]
  rw [if_neg (by simp)]
  rw [parseDecExp_signed v]
  simp

theorem digitsVal_replicate_zero (z : Nat) : digitsVal (List.replicate z 0) = 0 := by
  induction z with
  | zero => rfl
  | succ z ih =>
    rw [List.replicate_succ, show (0 : Nat) :: List.replicate z 0 =
      [0] ++ List.replicate z 0 from rfl, digitsVal_append, ih]
    simp [digitsVal]

theorem digitsVal_zeros_append (z : Nat) (w : List Nat) :
    digitsVal (List.replicate z 0 ++ w) = digitsVal w := by
  rw [digitsVal_append, digitsVal_replicate_zero]
  simp

theorem val_congr (b : Bool) (ds1 ds2 : List Nat) (e1 e2 : Int)
    (hd : digitsVal ds1 = digitsVal ds2) (he : e1 = e2) :
    Dec.val ⟨b, ds1, e1⟩ = Dec.val ⟨b, ds2, e2⟩ := by
  unfold Dec.val
  simp only [hd, he]

theorem decStr_parse_val (d : Dec) (hlt : ∀ x ∈ d.digits, x < 10) (hne : d.digits ≠ []) :
    ∃ d2, parseDec (decStr d) = some d2 ∧ d2.val = d.val := by
  obtain ⟨b, dg, e⟩ := d
  simp only at hlt hne
  have hDdig : ∀ c ∈ dg.map Nat.digitChar, c.isDigit = true := by
    intro c hc
    obtain ⟨x, hx, rfl⟩ := List.mem_map.mp hc
    exact (digitChar_spec x (hlt x hx)).1
  have hmapD : (dg.map Nat.digitChar).map charToDigit = dg := charsToDigits_map dg hlt
  have hn : 1 ≤ dg.length := List.length_pos.mpr hne
  by_cases hplain : e ≤ 0 ∧ -6 < e + ((dg.map Nat.digitChar).length : Int)
  · by_cases h0 : e + ((dg.map Nat.digitChar).length : Int) ≤ 0
    · have hshape : decStr ⟨b, dg, e⟩ = String.mk (signPrefix b ++ (['0'] ++ ('.' ::
          ((List.replicate (-(e + ((dg.map Nat.digitChar).length : Int))).toNat '0' ++
            dg.map Nat.digitChar) ++ [])))) := by
        unfold decStr
        dsimp only
        rw [if_pos hplain, if_pos h0, if_pos rfl]
        simp [signPrefix, List.append_assoc]
      rw [hshape]
      rw [parseDec_core_dot b ['0']
        (List.replicate (-(e + ((dg.map Nat.digitChar).length : Int))).toNat '0' ++
          dg.map Nat.digitChar) [] 0
        (by intro c hc; simp at hc; subst hc; decide)
        (by
          intro c hc
          rcases List.mem_append.mp hc with h | h
          · rw [List.eq_of_mem_replicate h]; decide
          · exact hDdig c h)
        (by simp) ⟨rfl, rfl⟩ rfl]
      refine ⟨_, rfl, ?_⟩
      rw [show (['0'] ++ (List.replicate (-(e + ((dg.map Nat.digitChar).length : Int))).toNat '0' ++
          dg.map Nat.digitChar)).map charToDigit =
          [0] ++ (List.replicate (-(e + ((dg.map Nat.digitChar).length : Int))).toNat 0 ++ dg) by
        simp only [List.map_append, List.map_replicate, hmapD]
        rfl]
      refine val_congr b _ _ _ _ ?_ ?_
      · rw [digitsVal_stripZeros, digitsVal_append, digitsVal_zeros_append]
        simp [digitsVal]
      · simp only [List.length_append, List.length_replicate, List.length_map]
        simp only [List.length_map] at h0 hplain
        omega
    · by_cases h2 : ((dg.map Nat.digitChar).length : Int) ≤ e + ((dg.map Nat.digitChar).length : Int)
      · -- plain integer form: the exponent is zero
        have he : e = 0 := by
          simp only [List.length_map] at h2
          omega
        subst he
        have hshape : decStr ⟨b, dg, 0⟩ = String.mk (signPrefix b ++ dg.map Nat.digitChar) := by
          unfold decStr
          dsimp only
          rw [if_pos hplain, if_neg h0, if_pos h2, if_pos rfl]
          simp [signPrefix]
        rw [hshape, parseDec_core_plain b _ hDdig (by simpa using hne)]
        refine ⟨_, rfl, ?_⟩
        refine val_congr b _ _ _ _ ?_ rfl
        rw [digitsVal_stripZeros, hmapD]
      · -- plain form with the point inside the digits
        have hlen : (dg.map Nat.digitChar).length = dg.length := List.length_map _ _
        have hpos : (0 : Int) < e + dg.length := by
          simp only [hlen] at h0
          omega
        have hlt2 : e + (dg.length : Int) < dg.length := by
          simp only [hlen] at h2
          omega
        have hshape : decStr ⟨b, dg, e⟩ = String.mk (signPrefix b ++
            ((dg.map Nat.digitChar).take (e + ((dg.map Nat.digitChar).length : Int)).toNat ++ ('.' ::
              ((dg.map Nat.digitChar).drop (e + ((dg.map Nat.digitChar).length : Int)).toNat ++ [])))) := by
          unfold decStr
          dsimp only
          rw [if_pos hplain, if_neg h0, if_neg h2, if_pos rfl]
          simp only [signPrefix, List.append_assoc, List.cons_append, List.append_nil]
        rw [hshape]
        rw [parseDec_core_dot b _ _ [] 0
          (fun c hc => hDdig c (List.take_subset _ _ hc))
          (fun c hc => hDdig c (List.drop_subset _ _ hc))
          (by
            have : ((dg.map Nat.digitChar).take (e + ((dg.map Nat.digitChar).length : Int)).toNat).length =
                min (e + ((dg.map Nat.digitChar).length : Int)).toNat (dg.map Nat.digitChar).length :=
              List.length_take _ _
            intro hcon
            rw [hcon] at this
            simp only [List.length_nil, hlen] at this
            omega)
          ⟨rfl, rfl⟩ rfl]
        refine ⟨_, rfl, ?_⟩
        rw [List.take_append_drop]
        refine val_congr b _ _ _ _ ?_ ?_
        · rw [digitsVal_stripZeros, hmapD]
        · simp only [List.length_drop, hlen]
          omega
  · -- scientific form
    have hld1 : e + ((dg.map Nat.digitChar).length : Int) ≠ 1 := by
      rw [not_and_or] at hplain
      simp only [List.length_map] at hplain ⊢
      push_neg at hplain
      omega
    by_cases hn1 : ((dg.map Nat.digitChar).length : Int) ≤ 1
    · have he1 : dg.length = 1 := by
        simp only [List.length_map] at hn1
        omega
      have hshape : decStr ⟨b, dg, e⟩ = String.mk (signPrefix b ++ (dg.map Nat.digitChar ++
          ('E' :: signedChars (e + ((dg.map Nat.digitChar).length : Int) - 1)))) := by
        unfold decStr
        dsimp only
        rw [if_neg hplain, if_pos hn1, if_neg hld1]
        have hz : ((1 : Int) - ((dg.map Nat.digitChar).length : Int)).toNat = 0 := by
          simp only [List.length_map, he1]
          rfl
        rw [hz]
        simp [signPrefix]
      rw [hshape, parseDec_core_exp b _ _ hDdig (by simpa using hne)]
      refine ⟨_, rfl, ?_⟩
      refine val_congr b _ _ _ _ ?_ ?_
      · rw [digitsVal_stripZeros, hmapD]
      · simp only [List.length_map, he1]
        omega
    · have hge2 : 2 ≤ dg.length := by
        simp only [List.length_map] at hn1
        omega
      have hshape : decStr ⟨b, dg, e⟩ = String.mk (signPrefix b ++
          ((dg.map Nat.digitChar).take 1 ++ ('.' :: ((dg.map Nat.digitChar).drop 1 ++
            ('E' :: signedChars (e + ((dg.map Nat.digitChar).length : Int) - 1)))))) := by
        unfold decStr
        dsimp only
        rw [if_neg hplain, if_neg hn1, if_neg hld1]
        simp [signPrefix, List.append_assoc, Int.toNat_one]
      rw [hshape]
      rw [parseDec_core_dot b _ _ ('E' :: signedChars (e + ((dg.map Nat.digitChar).length : Int) - 1)) _
        (fun c hc => hDdig c (List.take_subset _ _ hc))
        (fun c hc => hDdig c (List.drop_subset _ _ hc))
        (by
          have hl : ((dg.map Nat.digitChar).take 1).length = min 1 (dg.map Nat.digitChar).length :=
            List.length_take _ _
          intro hcon
          rw [hcon] at hl
          simp only [List.length_nil, List.length_map] at hl
          omega)
        ⟨by rw [List.takeWhile_cons_of_neg (by decide)],
         by rw [List.dropWhile_cons_of_neg (by decide)]⟩
        (parseDecExp_signed _)]
      refine ⟨_, rfl, ?_⟩
      rw [List.take_append_drop]
      refine val_congr b _ _ _ _ ?_ ?_
      · rw [digitsVal_stripZeros, hmapD]
      · simp only [List.length_drop, List.length_map]
        omega

theorem stripZeros_mem (x : Nat) (l : List Nat) (h : x ∈ stripZeros l) : x = 0 ∨ x ∈ l := by
  unfold stripZeros at h
  rcases hd : l.dropWhile (fun y => y == 0) with _ | ⟨r, rs⟩
  · rw [hd] at h
    simp at h
    exact Or.inl h
  · rw [hd] at h
    have h2 : x ∈ l.dropWhile (fun y => y == 0) := by
      rw [hd]
      exact h
    exact Or.inr ((List.dropWhile_sublist _).subset h2)

theorem frMatch_fst_digits (l : List Char) :
    ∀ c ∈ ((match l with
      | '.' :: r => (r.takeWhile Char.isDigit, r.dropWhile Char.isDigit)
      | r => ([], r)) : List Char × List Char).1, c.isDigit = true := by
  split
  · intro c hc
    exact List.mem_takeWhile_imp hc
  · intro c hc
    simp at hc

theorem parseDec_wf (s : String) (d : Dec) (h : parseDec s = some d) :
    (∀ x ∈ d.digits, x < 10) ∧ d.digits ≠ [] := by
  simp only [parseDec] at h
  split at h
  · cases h
  · split at h
    · rename_i ev hev
      cases h
      constructor
      · intro x hx
        rcases stripZeros_mem x _ hx with rfl | hx2
        · omega
        · obtain ⟨c, hc, rfl⟩ := List.mem_map.mp hx2
          rcases List.mem_append.mp hc with hc2 | hc2
          · exact isDigit_bound c (List.mem_takeWhile_imp hc2)
          · exact isDigit_bound c (frMatch_fst_digits _ c hc2)
      · exact stripZeros_ne_nil _
    · cases h

/-- C5: structuring a decimal wire string into the domain decimal type and
unstructuring back yields a string whose exact decimal value equals that of
the original string — the coefficient keeps every digit and the exponent
every fractional place, with no precision loss. -/
theorem C5_decimal_round_trip (s : String) (d : Dec) (h : structure_decimal s = .ok d) :
    ∃ d2, structure_decimal (unstructure_decimal d) = .ok d2 ∧ d2.val = d.val := by
  have hp : parseDec s = some d := by
    unfold structure_decimal at h
    cases hps : parseDec s with
    | none => rw [hps] at h; cases h
    | some d0 =>
      rw [hps] at h
      cases h
      rfl
  obtain ⟨hlt, hne⟩ := parseDec_wf s d hp
  obtain ⟨d2, hp2, hv⟩ := decStr_parse_val d hlt hne
  refine ⟨d2, ?_, hv⟩
  unfold structure_decimal unstructure_decimal
  rw [hp2]

/-- The decimal of the C5 witness: `Decimal("12.345000000000000001")`. -/
def decW : Dec := ⟨false, [1, 2, 3, 4, 5, 0, 0, 0, 0, 0, 0, 0, 0, 0, 0, 0, 0, 0, 0, 1], -18⟩

/-- C5 witness: the wire string `"12.345000000000000001"` structures into a
20-digit coefficient, unstructures back to the very same string, and the
round trip preserves the exact value. -/
theorem C5_witness :
    structure_decimal "12.345000000000000001" = .ok decW ∧
    unstructure_decimal decW = "12.345000000000000001" ∧
    (∃ d2, structure_decimal (unstructure_decimal decW) = .ok d2 ∧ d2.val = decW.val) :=
  ⟨rfl, rfl, C5_decimal_round_trip "12.345000000000000001" decW rfl⟩

/-! ## The timestamp codec (`Converter._structure_datetime` /
`Converter._unstructure_datetime`) -/

/-- A Python `datetime` as produced by `ciso8601.parse_datetime`: calendar
fields, microseconds, and an optional UTC offset in minutes (`none` for a
naive datetime, whose `timestamp()` the model reads in UTC). -/
structure PyDatetime where
  year : Nat
  month : Nat
  day : Nat
  hour : Nat
  minute : Nat
  second : Nat
  microsecond : Nat
  offsetMinutes : Option Int
  deriving DecidableEq

/-- Days from the civil epoch 1970-01-01 (the standard civil-from-days
calendar algorithm). -/
def daysFromCivil (y : Int) (m d : Nat) : Int :=
  let y2 : Int := if m ≤ 2 then y - 1 else y
  let era : Int := (if 0 ≤ y2 then y2 else y2 - 399) / 400
  let yoe : Int := y2 - era * 400
  let mp : Nat := (m + 9) % 12
  let doy : Int := (153 * mp + 2) / 5 + d - 1
  let doe : Int := yoe * 365 + yoe / 4 - yoe / 100 + doy
  era * 146097 + doe - 719468

/-- `datetime.timestamp()`: seconds since the epoch, exact. -/
def PyDatetime.timestampQ (dt : PyDatetime) : ℚ :=
  let secs : ℚ := (daysFromCivil dt.year dt.month dt.day : ℚ) * 86400 +
    dt.hour * 3600 + dt.minute * 60 + dt.second + (dt.microsecond : ℚ) / 1000000
  match dt.offsetMinutes with
  | some off => secs - off * 60
  | Option.none => secs

/-- Python `int()` on a number: truncation toward zero. -/
def pyIntQ (q : ℚ) : Int := if 0 ≤ q then ⌊q⌋ else -⌊-q⌋

/-- The two-digit number at two characters. -/
def digit2 (a b : Char) : Option Nat :=
  if a.isDigit ∧ b.isDigit then some (charToDigit a * 10 + charToDigit b) else Option.none

/-- The four-digit number at four characters. -/
def digit4 (a b c d : Char) : Option Nat :=
  if a.isDigit ∧ b.isDigit ∧ c.isDigit ∧ d.isDigit then
    some (((charToDigit a * 10 + charToDigit b) * 10 + charToDigit c) * 10 + charToDigit d)
  else Option.none

/-- The length of a month, leap years included. -/
def daysInMonth (y m : Nat) : Nat :=
  if m = 2 then (if (y % 4 = 0 ∧ y % 100 ≠ 0) ∨ y % 400 = 0 then 29 else 28)
  else if m = 4 ∨ m = 6 ∨ m = 9 ∨ m = 11 then 30 else 31

/-- A UTC offset body: `HH`, `HH:MM` or `HHMM`, bounded as a time of day. -/
def parseTzOff : List Char → Option Int
  | [h1, h2] => do
    let h ← digit2 h1 h2
    if h ≤ 23 then some (h * 60) else Option.none
  | [h1, h2, ':', m1, m2] => do
    let h ← digit2 h1 h2
    let m ← digit2 m1 m2
    if h ≤ 23 ∧ m ≤ 59 then some (h * 60 + m) else Option.none
  | [h1, h2, m1, m2] => do
    let h ← digit2 h1 h2
    let m ← digit2 m1 m2
    if h ≤ 23 ∧ m ≤ 59 then some (h * 60 + m) else Option.none
  | _ => Option.none

/-- A timezone suffix: absent (naive), `Z`, or a signed offset. -/
def parseTz : List Char → Option (Option Int)
  | [] => some Option.none
  | ['Z'] => some (some 0)
  | '+' :: rest => (parseTzOff rest).map some
  | '-' :: rest => (parseTzOff rest).map (fun o => some (-o))
  | _ => Option.none

/-- Fractional seconds: at least one digit; the first six digits, padded
with zeros, give the microseconds. -/
def parseFrac (cs : List Char) : Option (Nat × List Char) :=
  let fd := cs.takeWhile Char.isDigit
  if fd.isEmpty then Option.none
  else
    some (digitsVal ((fd.take 6).map charToDigit) * 10 ^ (6 - min 6 fd.length),
      cs.dropWhile Char.isDigit)

/-- The time-of-day part: `HH:MM:SS` (optionally with a fraction) or
`HH:MM`, followed by the timezone suffix. -/
def parseTime : List Char → Option (Nat × Nat × Nat × Nat × Option Int)
  | h1 :: h2 :: ':' :: m1 :: m2 :: ':' :: s1 :: s2 :: rest => do
    let h ← digit2 h1 h2
    let m ← digit2 m1 m2
    let s ← digit2 s1 s2
    if h ≤ 23 ∧ m ≤ 59 ∧ s ≤ 59 then
      match rest with
      | '.' :: fr => do
        let (micro, rest2) ← parseFrac fr
        let tz ← parseTz rest2
        pure (h, m, s, micro, tz)
      | ',' :: fr => do
        let (micro, rest2) ← parseFrac fr
        let tz ← parseTz rest2
        pure (h, m, s, micro, tz)
      | _ => do
        let tz ← parseTz rest
        pure (h, m, s, 0, tz)
    else Option.none
  | h1 :: h2 :: ':' :: m1 :: m2 :: rest => do
    let h ← digit2 h1 h2
    let m ← digit2 m1 m2
    if h ≤ 23 ∧ m ≤ 59 then do
      let tz ← parseTz rest
      pure (h, m, 0, 0, tz)
    else Option.none
  | _ => Option.none

/-- `ciso8601.parse_datetime` on the extended ISO-8601 format:
`YYYY-MM-DD`, optionally `T` or a space and a time of day with fraction and
offset; calendar fields are validated.  (Basic-format dates without
separators are outside the model.) -/
def parseDatetime (s : String) : Option PyDatetime :=
  match s.data with
  | y1 :: y2 :: y3 :: y4 :: '-' :: m1 :: m2 :: '-' :: d1 :: d2 :: rest => do
    let y ← digit4 y1 y2 y3 y4
    let mo ← digit2 m1 m2
    let d ← digit2 d1 d2
    if 1 ≤ y ∧ 1 ≤ mo ∧ mo ≤ 12 ∧ 1 ≤ d ∧ d ≤ daysInMonth y mo then
      match rest with
      | [] => pure ⟨y, mo, d, 0, 0, 0, 0, Option.none⟩
      | 'T' :: rest2 => do
        let (h, m, s2, micro, tz) ← parseTime rest2
        pure ⟨y, mo, d, h, m, s2, micro, tz⟩
      | ' ' :: rest2 => do
        let (h, m, s2, micro, tz) ← parseTime rest2
        pure ⟨y, mo, d, h, m, s2, micro, tz⟩
      | _ => Option.none
    else Option.none
  | _ => Option.none

/-- `Converter._structure_datetime`: parse with `ciso8601`; the suppressed
parse failure falls through to the bare `raise ValueError`. -/
def structure_datetime (s : String) : Except PyErr PyDatetime :=
  match parseDatetime s with
  | some dt => .ok dt
  | Option.none => .error .valueError

/-- `Converter._unstructure_datetime`: `int(1000 * obj.timestamp())`. -/
def unstructure_datetime (dt : PyDatetime) : Int :=
  pyIntQ (1000 * dt.timestampQ)

/-- Microseconds since the epoch, as an integer — the spec-side view of an
absolute point in time. -/
def microsSinceEpoch (dt : PyDatetime) : Int :=
  daysFromCivil dt.year dt.month dt.day * 86400000000 + dt.hour * 3600000000 +
    dt.minute * 60000000 + dt.second * 1000000 + dt.microsecond -
    (match dt.offsetMinutes with
     | some off => off * 60000000
     | Option.none => 0)

/-- Python `int()` of an integer divided by a positive natural is truncated
division. -/
theorem pyIntQ_intCast_div_natCast (a : Int) (b : Nat) (hb : 0 < b) :
    pyIntQ ((a : ℚ) / (b : ℚ)) = a.tdiv b := by
  unfold pyIntQ
  by_cases ha : 0 ≤ a
  · rw [if_pos (by positivity)]
    rw [Rat.floor_intCast_div_natCast]
    exact (Int.tdiv_eq_ediv ha (by positivity)).symm
  · push_neg at ha
    have hq : ((a : ℚ) / b) < 0 :=
      div_neg_of_neg_of_pos (by exact_mod_cast ha) (by positivity)
    rw [if_neg (not_le.mpr hq)]
    rw [show -((a : ℚ) / b) = ((-a : Int) : ℚ) / b by push_cast; ring]
    rw [Rat.floor_intCast_div_natCast]
    rw [← Int.tdiv_eq_ediv (by omega) (by positivity), Int.neg_tdiv]
    simp

/-- `1000 * timestamp()` is the epoch microseconds over 1000. -/
theorem thousand_timestampQ (dt : PyDatetime) :
    1000 * dt.timestampQ = (microsSinceEpoch dt : ℚ) / ((1000 : ℕ) : ℚ) := by
  obtain ⟨y, mo, d, h, mi, se, mu, off⟩ := dt
  unfold PyDatetime.timestampQ microsSinceEpoch
  cases off <;> (push_cast; field_simp; ring)

/-- C6: the timestamp codec is asymmetric — structuring parses an
ISO-8601 wire string into a point in time and any parse failure surfaces
as a ValueError (never a silent default), while unstructuring renders a
datetime as the integer count of milliseconds since the epoch (truncated
toward zero, as Python `int()` does), not as the receiving string format. -/
theorem C6_datetime_codec (s : String) (dt : PyDatetime) :
    (structure_datetime s = .ok dt → parseDatetime s = some dt) ∧
    (parseDatetime s = Option.none → structure_datetime s = .error PyErr.valueError) ∧
    unstructure_datetime dt = (microsSinceEpoch dt).tdiv 1000 := by
  refine ⟨?_, ?_, ?_⟩
  · intro h
    unfold structure_datetime at h
    cases hp : parseDatetime s with
    | none => rw [hp] at h; cases h
    | some d0 =>
      rw [hp] at h
      cases h
      rfl
  · intro h
    unfold structure_datetime
    rw [h]
  · unfold unstructure_datetime
    rw [thousand_timestampQ, pyIntQ_intCast_div_natCast _ 1000 (by norm_num)]
    norm_num

/-- The datetime of the C6 witness: 2021-02-03T04:05:06.789Z. -/
def dtW : PyDatetime := ⟨2021, 2, 3, 4, 5, 6, 789000, some 0⟩

/-- C6 witness: a UTC wire timestamp structures to the expected fields, the
malformed string `"garbage"` raises a ValueError, and unstructuring yields
the truncated epoch milliseconds. -/
theorem C6_witness :
    parseDatetime "2021-02-03T04:05:06.789Z" = some dtW ∧
    structure_datetime "garbage" = .error PyErr.valueError ∧
    unstructure_datetime dtW = (microsSinceEpoch dtW).tdiv 1000 :=
  ⟨(C6_datetime_codec "2021-02-03T04:05:06.789Z" dtW).1 rfl,
   (C6_datetime_codec "garbage" dtW).2.1 rfl,
   (C6_datetime_codec "garbage" dtW).2.2⟩
